import Mathlib

/-!
# Verification of the deepseek-ocr CLI core

Shallow embedding of the core subsystems of the `deepseekocr_cli` repository:

* the configuration precedence resolver (`src/lib/config-manager.js`,
  `ConfigManager.getEffective` and `ConfigManager.maskApiKey`),
* the task polling engine (`src/lib/client.js`, `OCRClient.waitForTask`),
* the bounded-concurrency batch runner (`src/commands/batch.js`,
  `processSingleFile` and `processInChunks`),
* the task history store (`src/commands/task.js`, `pruneOldTasks` and
  `handleTaskList`),
* the ZIP extraction control flow (`src/lib/utils.js`, `extractZip`).

JavaScript numbers that only ever hold exact timing quantities are modelled
as rationals (every value produced by the polling schedule from integral
inputs is a dyadic rational, hence exact in binary floating point), epoch
milliseconds as integers, and JavaScript's dynamically typed configuration
values as the inductive type `JSVal`.
-/

namespace DSOCR

/-- A JavaScript value as it can appear in a configuration layer:
`undefined`, `null`, a string, a number, or a boolean. -/
inductive JSVal where
  | undef
  | nullv
  | str (s : String)
  | num (q : ℚ)
  | boolv (b : Bool)
  deriving DecidableEq, Repr

/-- The condition of the first branch of `ConfigManager.getEffective`:
`cliValue !== undefined && cliValue !== null`. -/
def definedCli (v : JSVal) : Bool :=
  v ≠ JSVal.undef && v ≠ JSVal.nullv

/-- JavaScript truthiness of `process.env[envVar]`: the variable is set and
its (string) value is non-empty. -/
def envTruthy (v : Option String) : Bool :=
  match v with
  | some s => s ≠ ""
  | none => false

/-- The condition of the second branch of `getEffective`:
`envVar && process.env[envVar]` (the variable name is truthy and the
looked-up value is truthy). -/
def definedEnv (env : String → Option String) (envVar : String) : Bool :=
  envVar ≠ "" && envTruthy (env envVar)

/-- The condition of the third branch of `getEffective`:
`configValue !== undefined && configValue !== null && configValue !== ''`. -/
def definedFile (v : JSVal) : Bool :=
  v ≠ JSVal.undef && v ≠ JSVal.nullv && v ≠ JSVal.str ""

/-- `ConfigManager.getEffective(key, envVar, cliValue, defaultValue)` from
`src/lib/config-manager.js`.  `store` models `this.get` (the persisted
config file) and `env` models `process.env`.  The four guarded returns are
translated branch for branch. -/
def getEffective (store : String → JSVal) (env : String → Option String)
    (key envVar : String) (cliValue defaultValue : JSVal) : JSVal :=
  if definedCli cliValue then cliValue
  else if definedEnv env envVar then JSVal.str ((env envVar).getD "")
  else if definedFile (store key) then store key
  else defaultValue

/-- `ConfigManager.maskApiKey(key)` from `src/lib/config-manager.js`:
`!key || key.length < 16` yields the fixed placeholder, otherwise
`key.substring(0, 8) + '...' + key.substring(key.length - 8)`, modelled at
the character level. -/
def maskApiKey (key : String) : String :=
  if key = "" ∨ key.length < 16 then "***"
  else String.mk (key.toList.take 8) ++ "..." ++
    String.mk (key.toList.drop (key.length - 8))

theorem data_append (s t : String) : (s ++ t).data = s.data ++ t.data := by
  cases s; cases t; rfl

/-- **C1** — For every configuration field, the effective value produced by
`getEffective` is the value of the highest-precedence layer that defines
that field, in the order CLI flag > environment variable > config file >
built-in default; each lower layer is consulted only when every higher
layer leaves the field undefined. -/
theorem getEffective_precedence (store : String → JSVal)
    (env : String → Option String) (key envVar : String)
    (cliValue defaultValue : JSVal) :
    (definedCli cliValue = true →
      getEffective store env key envVar cliValue defaultValue = cliValue) ∧
    (definedCli cliValue = false → definedEnv env envVar = true →
      getEffective store env key envVar cliValue defaultValue =
        JSVal.str ((env envVar).getD "")) ∧
    (definedCli cliValue = false → definedEnv env envVar = false →
      definedFile (store key) = true →
      getEffective store env key envVar cliValue defaultValue = store key) ∧
    (definedCli cliValue = false → definedEnv env envVar = false →
      definedFile (store key) = false →
      getEffective store env key envVar cliValue defaultValue = defaultValue) := by
  refine ⟨?_, ?_, ?_, ?_⟩ <;> intros <;> simp_all [getEffective]

theorem getEffective_precedence_witness :
    (definedCli (JSVal.str "cli") = true ∧
      getEffective (fun _ => JSVal.undef) (fun _ => none) "api.key"
        "DEEPSEEK_OCR_API_KEY" (JSVal.str "cli") (JSVal.str "dflt") =
        JSVal.str "cli") ∧
    (definedCli JSVal.undef = false ∧ definedEnv (fun _ => some "envval") "E" = true ∧
      getEffective (fun _ => JSVal.undef) (fun _ => some "envval") "k" "E"
        JSVal.undef (JSVal.str "dflt") = JSVal.str "envval") := by
  refine ⟨⟨by decide, ?_⟩, ⟨by decide, by decide, ?_⟩⟩
  · exact (getEffective_precedence (fun _ => JSVal.undef) (fun _ => none)
      "api.key" "DEEPSEEK_OCR_API_KEY" (JSVal.str "cli") (JSVal.str "dflt")).1
      (by decide)
  · exact ((getEffective_precedence (fun _ => JSVal.undef) (fun _ => some "envval")
      "k" "E" JSVal.undef (JSVal.str "dflt")).2.1 (by decide) (by decide))

/-- **C10** — Empty strings are treated differently per layer: a CLI value
that is the empty string is returned as the effective value (only
`undefined`/`null` are skipped); an environment variable set to the empty
string is treated as absent; and a config-file value that is the empty
string (or `undefined`/`null`) is treated as absent, so the default is
returned. -/
theorem getEffective_empty_string (store : String → JSVal)
    (env : String → Option String) (key envVar : String) :
    (∀ dv, getEffective store env key envVar (JSVal.str "") dv = JSVal.str "") ∧
    (∀ cli dv, definedCli cli = false → env envVar = some "" →
      getEffective store env key envVar cli dv =
        if definedFile (store key) then store key else dv) ∧
    (∀ cli dv, definedCli cli = false → definedEnv env envVar = false →
      (store key = JSVal.str "" ∨ store key = JSVal.undef ∨
        store key = JSVal.nullv) →
      getEffective store env key envVar cli dv = dv) := by
  refine ⟨?_, ?_, ?_⟩
  · intro dv
    simp [getEffective, definedCli]
  · intro cli dv hcli henv
    have henvdef : definedEnv env envVar = false := by
      simp [definedEnv, henv, envTruthy]
    simp [getEffective, hcli, henvdef]
  · intro cli dv hcli henv hfile
    have hfiledef : definedFile (store key) = false := by
      rcases hfile with h | h | h <;> simp [definedFile, h]
    simp [getEffective, hcli, henv, hfiledef]

theorem getEffective_empty_string_witness :
    getEffective (fun _ => JSVal.str "") (fun _ => some "") "defaults.mode"
      "DEEPSEEK_OCR_MODE" JSVal.undef (JSVal.str "document_markdown") =
      JSVal.str "document_markdown" := by
  have h := (getEffective_empty_string (fun _ => JSVal.str "")
    (fun _ => some "") "defaults.mode" "DEEPSEEK_OCR_MODE").2.2
    JSVal.undef (JSVal.str "document_markdown") (by decide) (by decide)
    (Or.inl rfl)
  exact h

/-- **C9** — Masking a credential of length ≥ 16 yields exactly the first 8
characters, an ellipsis, and the last 8 characters; any credential shorter
than 16 characters (including the empty one) yields the fixed placeholder
`***`, which is independent of the credential's characters. -/
theorem maskApiKey_spec (key : String) :
    (16 ≤ key.length →
      (maskApiKey key).toList =
        key.toList.take 8 ++ ('.' :: '.' :: '.' :: []) ++
          key.toList.drop (key.length - 8)) ∧
    (key.length < 16 → maskApiKey key = "***") ∧
    (∀ k₂ : String, key.length < 16 → k₂.length < 16 →
      maskApiKey key = maskApiKey k₂) := by
  refine ⟨?_, ?_, ?_⟩
  · intro hlen
    have hne : ¬(key = "" ∨ key.length < 16) := by
      rintro (h | h)
      · rw [h] at hlen; simp [String.length] at hlen
      · omega
    rw [maskApiKey, if_neg hne]
    show (String.mk (key.toList.take 8) ++ "..." ++
      String.mk (key.toList.drop (key.length - 8))).data = _
    rw [data_append, data_append]
  · intro hlen
    rw [maskApiKey, if_pos (Or.inr hlen)]
  · intro k₂ h1 h2
    rw [maskApiKey, if_pos (Or.inr h1), maskApiKey, if_pos (Or.inr h2)]

theorem maskApiKey_spec_witness :
    (16 ≤ ("sk-abcdefghijklmnopqrstuvwxyz" : String).length ∧
      (maskApiKey "sk-abcdefghijklmnopqrstuvwxyz").toList =
        ("sk-abcdefghijklmnopqrstuvwxyz" : String).toList.take 8 ++
          ('.' :: '.' :: '.' :: []) ++
          ("sk-abcdefghijklmnopqrstuvwxyz" : String).toList.drop
            (("sk-abcdefghijklmnopqrstuvwxyz" : String).length - 8)) ∧
    (("short" : String).length < 16 ∧ maskApiKey "short" = "***") := by
  refine ⟨⟨by decide, ?_⟩, ⟨by decide, ?_⟩⟩
  · exact (maskApiKey_spec "sk-abcdefghijklmnopqrstuvwxyz").1 (by decide)
  · exact (maskApiKey_spec "short").2.1 (by decide)

/-! ## Task polling engine (`OCRClient.waitForTask`, `src/lib/client.js`) -/

/-- A task snapshot as returned by `getTaskStatus`: the `status` string and
the optional server-reported error message (`status.error?.message`). -/
structure TaskSnapshot where
  status : String
  errorMsg : Option String
  deriving DecidableEq, Repr

/-- The three ways `waitForTask` can end: return the final snapshot, throw
`Task failed: ...`, or throw the task-timeout error. -/
inductive PollOutcome where
  | done (t : TaskSnapshot)
  | taskFailed (msg : String)
  | timedOut
  deriving DecidableEq, Repr

/-- `status.error?.message || 'Unknown error'`: the chain yields the
message unless it is absent or the empty string (falsy). -/
def errorDetail (e : Option String) : String :=
  match e with
  | some m => if m = "" then "Unknown error" else m
  | none => "Unknown error"

/-- The delay update of `waitForTask`:
`delay = Math.min(delay * 1.5, maxDelay)`. -/
def nextDelay (maxDelay delay : ℚ) : ℚ :=
  min (delay * (3 / 2)) maxDelay

/-- Whether a snapshot is in a terminal state (`completed` or `failed`). -/
def Terminal (s : TaskSnapshot) : Prop :=
  s.status = "completed" ∨ s.status = "failed"

instance (s : TaskSnapshot) : Decidable (Terminal s) := by
  unfold Terminal; infer_instance

/-- The `while (true)` loop of `OCRClient.waitForTask`, embedded with
explicit state.  `queries k` is the snapshot returned by the (0-indexed)
`k`-th `getTaskStatus` call; queries are treated as instantaneous, so the
wall clock `Date.now() - startTime` is the accumulated sleep time
`elapsed`.  `delay` and `pollCount` are the loop variables of the source;
`cb` counts `onProgress` invocations (the source calls `onProgress(status)`
once, unconditionally, after every query).  `fuel` bounds the number of
iterations; `none` means the bound was reached.  The result carries the
outcome together with the final `pollCount` and `cb`. -/
def waitForTaskAux (queries : Nat → TaskSnapshot) (timeout initialDelay maxDelay : ℚ) :
    Nat → ℚ → ℚ → Nat → Nat → Option (PollOutcome × Nat × Nat)
  | 0, _, _, _, _ => none
  | fuel + 1, elapsed, delay, pollCount, cb =>
    if timeout < elapsed then some (PollOutcome.timedOut, pollCount, cb)
    else
      let s := queries pollCount
      if s.status = "completed" then some (PollOutcome.done s, pollCount + 1, cb + 1)
      else if s.status = "failed" then
        some (PollOutcome.taskFailed (errorDetail s.errorMsg), pollCount + 1, cb + 1)
      else if pollCount + 1 < 5 then
        waitForTaskAux queries timeout initialDelay maxDelay fuel
          (elapsed + initialDelay) delay (pollCount + 1) (cb + 1)
      else
        waitForTaskAux queries timeout initialDelay maxDelay fuel
          (elapsed + delay) (nextDelay maxDelay delay) (pollCount + 1) (cb + 1)

/-- `OCRClient.waitForTask`: run the polling loop from its initial state
(`elapsed = 0`, `delay = initialDelay`, `pollCount = 0`, no callbacks
yet). -/
def waitForTask (queries : Nat → TaskSnapshot) (timeout initialDelay maxDelay : ℚ)
    (fuel : Nat) : Option (PollOutcome × Nat × Nat) :=
  waitForTaskAux queries timeout initialDelay maxDelay fuel 0 initialDelay 0 0

theorem waitForTaskAux_step_burst (q : Nat → TaskSnapshot) (t i m : ℚ)
    (fuel : Nat) (e d : ℚ) (pc cb : Nat) (e' : ℚ)
    (ht : ¬ t < e) (hc : (q pc).status ≠ "completed")
    (hf : (q pc).status ≠ "failed") (hb : pc + 1 < 5) (he : e + i = e') :
    waitForTaskAux q t i m (fuel + 1) e d pc cb =
      waitForTaskAux q t i m fuel e' d (pc + 1) (cb + 1) := by
  rw [waitForTaskAux]
  simp only [if_neg ht, if_neg hc, if_neg hf, if_pos hb, he]

theorem waitForTaskAux_step_backoff (q : Nat → TaskSnapshot) (t i m : ℚ)
    (fuel : Nat) (e d : ℚ) (pc cb : Nat) (e' d' : ℚ)
    (ht : ¬ t < e) (hc : (q pc).status ≠ "completed")
    (hf : (q pc).status ≠ "failed") (hb : ¬ pc + 1 < 5)
    (he : e + d = e') (hd : nextDelay m d = d') :
    waitForTaskAux q t i m (fuel + 1) e d pc cb =
      waitForTaskAux q t i m fuel e' d' (pc + 1) (cb + 1) := by
  rw [waitForTaskAux]
  simp only [if_neg ht, if_neg hc, if_neg hf, if_neg hb, he, hd]

theorem waitForTaskAux_step_done (q : Nat → TaskSnapshot) (t i m : ℚ)
    (fuel : Nat) (e d : ℚ) (pc cb : Nat)
    (ht : ¬ t < e) (hc : (q pc).status = "completed") :
    waitForTaskAux q t i m (fuel + 1) e d pc cb =
      some (PollOutcome.done (q pc), pc + 1, cb + 1) := by
  rw [waitForTaskAux]
  simp only [if_neg ht, if_pos hc]

/-- The geometric phase of the delay schedule: `geomDelay j` is the value
of the loop variable `delay` after `j` applications of the update. -/
def geomDelay (initialDelay maxDelay : ℚ) : Nat → ℚ
  | 0 => initialDelay
  | j + 1 => nextDelay maxDelay (geomDelay initialDelay maxDelay j)

/-- Duration of the sleep performed after the `k`-th status query
(0-indexed): the first five sleeps (after queries 0–4) last
`initialDelay`, after that the delay grows geometrically with cap. -/
def sleepSched (initialDelay maxDelay : ℚ) (k : Nat) : ℚ :=
  if k < 4 then initialDelay else geomDelay initialDelay maxDelay (k - 4)

/-- Total sleep time after the first `n` queries. -/
def elapsedAfter (initialDelay maxDelay : ℚ) : Nat → ℚ
  | 0 => 0
  | n + 1 => elapsedAfter initialDelay maxDelay n + sleepSched initialDelay maxDelay n

/-- Value of the loop variable `delay` at the top of the iteration that
performs the `k`-th query. -/
def delayInv (initialDelay maxDelay : ℚ) (k : Nat) : ℚ :=
  if k < 5 then initialDelay else geomDelay initialDelay maxDelay (k - 4)

/-- Schedule-level view of the polling loop: the loop state at the `k`-th
query is determined by `k` alone (`elapsedAfter`/`delayInv`), so the loop
is equivalent to this recursion on the query index. -/
def pollRun (queries : Nat → TaskSnapshot) (timeout initialDelay maxDelay : ℚ) :
    Nat → Nat → Option (PollOutcome × Nat)
  | 0, _ => none
  | fuel + 1, k =>
    if timeout < elapsedAfter initialDelay maxDelay k then
      some (PollOutcome.timedOut, k)
    else if (queries k).status = "completed" then
      some (PollOutcome.done (queries k), k + 1)
    else if (queries k).status = "failed" then
      some (PollOutcome.taskFailed (errorDetail (queries k).errorMsg), k + 1)
    else pollRun queries timeout initialDelay maxDelay fuel (k + 1)

theorem delayInv_zero (i m : ℚ) : delayInv i m 0 = i := by
  simp [delayInv]

theorem sleepSched_eq_delayInv (i m : ℚ) (k : Nat) (hk : 4 ≤ k) :
    sleepSched i m k = delayInv i m k := by
  rcases Nat.lt_or_ge k 5 with h | h
  · have : k = 4 := by omega
    subst this
    simp [sleepSched, delayInv, geomDelay]
  · have h4 : ¬ k < 4 := by omega
    have h5 : ¬ k < 5 := by omega
    simp [sleepSched, delayInv, h4, h5]

theorem sleepSched_burst (i m : ℚ) (k : Nat) (hk : k < 4) :
    sleepSched i m k = i := by
  simp [sleepSched, hk]

theorem delayInv_burst (i m : ℚ) (k : Nat) (hk : k < 5) : delayInv i m k = i := by
  simp [delayInv, hk]

theorem delayInv_step (i m : ℚ) (k : Nat) (hk : 4 ≤ k) :
    delayInv i m (k + 1) = nextDelay m (delayInv i m k) := by
  rcases Nat.lt_or_ge k 5 with h | h
  · have : k = 4 := by omega
    subst this
    simp [delayInv, geomDelay]
  · have h5 : ¬ k < 5 := by omega
    have h5' : ¬ k + 1 < 5 := by omega
    have hidx : k + 1 - 4 = (k - 4) + 1 := by omega
    simp only [delayInv, if_neg h5, if_neg h5', hidx, geomDelay]

/-- Bridge lemma: starting the loop body at the state reached before the
`k`-th query, `waitForTaskAux` computes exactly the schedule-level
`pollRun`, with the callback count equal to the query count. -/
theorem waitForTaskAux_eq_pollRun (q : Nat → TaskSnapshot) (t i m : ℚ) :
    ∀ (fuel k : Nat),
      waitForTaskAux q t i m fuel (elapsedAfter i m k) (delayInv i m k) k k =
        (pollRun q t i m fuel k).map (fun x => (x.1, x.2, x.2)) := by
  intro fuel
  induction fuel with
  | zero => intro k; simp [waitForTaskAux, pollRun]
  | succ fuel ih =>
    intro k
    rw [waitForTaskAux, pollRun]
    by_cases ht : t < elapsedAfter i m k
    · simp [ht]
    · rw [if_neg ht, if_neg ht]
      by_cases hc : (q k).status = "completed"
      · simp [hc]
      · rw [if_neg hc]
        by_cases hf : (q k).status = "failed"
        · simp [hc, hf]
        · rw [if_neg hf]
          simp only [hc, if_false, hf]
          by_cases hb : k + 1 < 5
          · have hk4 : k < 4 := by omega
            have he : elapsedAfter i m k + i = elapsedAfter i m (k + 1) := by
              rw [elapsedAfter, sleepSched_burst i m k hk4]
            have hd : delayInv i m k = delayInv i m (k + 1) := by
              rw [delayInv_burst i m k (by omega), delayInv_burst i m (k + 1) hb]
            rw [if_pos hb, delayInv_burst i m k (by omega)] at *
            have := ih (k + 1)
            rw [← he, delayInv_burst i m (k + 1) hb] at this
            exact this
          · have hk4 : 4 ≤ k := by omega
            have he : elapsedAfter i m k + delayInv i m k = elapsedAfter i m (k + 1) := by
              rw [elapsedAfter, sleepSched_eq_delayInv i m k hk4]
            have hd : nextDelay m (delayInv i m k) = delayInv i m (k + 1) :=
              (delayInv_step i m k hk4).symm
            rw [if_neg hb, he, hd]
            exact ih (k + 1)

/-- `waitForTask` computes `pollRun` from index 0, and every `onProgress`
invocation corresponds to exactly one status query. -/
theorem waitForTask_eq_pollRun (q : Nat → TaskSnapshot) (t i m : ℚ) (fuel : Nat) :
    waitForTask q t i m fuel =
      (pollRun q t i m fuel 0).map (fun x => (x.1, x.2, x.2)) := by
  have h := waitForTaskAux_eq_pollRun q t i m fuel 0
  rw [delayInv_zero] at h
  simpa [waitForTask, elapsedAfter] using h

/-- What each outcome of the polling loop guarantees: a `done` outcome is
the first queried snapshot in a terminal state, it is `completed`, and it
was queried within the budget; a `taskFailed` outcome likewise comes from
the first terminal snapshot, which is `failed`, and carries the
server-reported detail; a `timedOut` outcome occurs only when the elapsed
time exceeded the budget with no terminal snapshot queried before.
`p` is the number of status queries performed. -/
def PollSpec (q : Nat → TaskSnapshot) (t i m : ℚ) (r : PollOutcome) (p : Nat) : Prop :=
  match r with
  | PollOutcome.done s =>
      1 ≤ p ∧ s = q (p - 1) ∧ s.status = "completed" ∧
      (∀ j, j < p - 1 → ¬ Terminal (q j)) ∧ elapsedAfter i m (p - 1) ≤ t
  | PollOutcome.taskFailed msg =>
      1 ≤ p ∧ (q (p - 1)).status = "failed" ∧
      msg = errorDetail ((q (p - 1)).errorMsg) ∧
      (∀ j, j < p - 1 → ¬ Terminal (q j)) ∧ elapsedAfter i m (p - 1) ≤ t
  | PollOutcome.timedOut =>
      t < elapsedAfter i m p ∧ (∀ j, j < p → ¬ Terminal (q j))

theorem pollRun_spec (q : Nat → TaskSnapshot) (t i m : ℚ) :
    ∀ (fuel k : Nat) (r : PollOutcome) (p : Nat),
      (∀ j, j < k → ¬ Terminal (q j)) →
      pollRun q t i m fuel k = some (r, p) → PollSpec q t i m r p := by
  intro fuel
  induction fuel with
  | zero => intro k r p _ h; simp [pollRun] at h
  | succ fuel ih =>
    intro k r p hk h
    rw [pollRun] at h
    by_cases ht : t < elapsedAfter i m k
    · rw [if_pos ht] at h
      obtain ⟨hr, hp⟩ := Prod.mk.injEq .. ▸ Option.some.injEq .. ▸ h
      subst hp
      rw [← hr]
      exact ⟨ht, hk⟩
    · rw [if_neg ht] at h
      by_cases hc : (q k).status = "completed"
      · rw [if_pos hc] at h
        obtain ⟨hr, hp⟩ := Prod.mk.injEq .. ▸ Option.some.injEq .. ▸ h
        subst hp
        rw [← hr]
        refine ⟨by omega, by simp, by simpa using hc, ?_, ?_⟩
        · intro j hj
          exact hk j (by omega)
        · simpa using not_lt.mp ht
      · rw [if_neg hc] at h
        by_cases hf : (q k).status = "failed"
        · rw [if_pos hf] at h
          obtain ⟨hr, hp⟩ := Prod.mk.injEq .. ▸ Option.some.injEq .. ▸ h
          subst hp
          rw [← hr]
          refine ⟨by omega, by simpa using hf, by simp, ?_, ?_⟩
          · intro j hj
            exact hk j (by omega)
          · simpa using not_lt.mp ht
        · rw [if_neg hf] at h
          refine ih (k + 1) r p ?_ h
          intro j hj
          rcases Nat.lt_or_ge j k with hjk | hjk
          · exact hk j hjk
          · have : j = k := by omega
            subst this
            rintro (hterm | hterm)
            · exact hc hterm
            · exact hf hterm

theorem pollRun_none_le (q : Nat → TaskSnapshot) (t i m : ℚ) :
    ∀ (f k : Nat), pollRun q t i m (f + 1) k = none →
      elapsedAfter i m (k + f) ≤ t := by
  intro f
  induction f with
  | zero =>
    intro k h
    rw [pollRun] at h
    by_cases ht : t < elapsedAfter i m k
    · rw [if_pos ht] at h; exact absurd h (by simp)
    · simpa using not_lt.mp ht
  | succ f ih =>
    intro k h
    rw [pollRun] at h
    by_cases ht : t < elapsedAfter i m k
    · rw [if_pos ht] at h; exact absurd h (by simp)
    · rw [if_neg ht] at h
      by_cases hc : (q k).status = "completed"
      · rw [if_pos hc] at h; exact absurd h (by simp)
      · rw [if_neg hc] at h
        by_cases hf : (q k).status = "failed"
        · rw [if_pos hf] at h; exact absurd h (by simp)
        · rw [if_neg hf] at h
          have := ih (k + 1) h
          have harith : k + 1 + f = k + (f + 1) := by omega
          rwa [harith] at this

theorem geomDelay_ge_min (i m : ℚ) (hi : 0 < i) (hm : 0 < m) :
    ∀ j, min i m ≤ geomDelay i m j := by
  intro j
  induction j with
  | zero => exact min_le_left i m
  | succ j ih =>
    rw [geomDelay, nextDelay]
    refine le_min ?_ (min_le_right i m)
    calc min i m ≤ geomDelay i m j := ih
    _ ≤ geomDelay i m j * (3 / 2) := by
        refine le_mul_of_one_le_right ?_ (by norm_num)
        exact le_trans (le_min hi.le hm.le) ih

theorem sleepSched_ge_min (i m : ℚ) (hi : 0 < i) (hm : 0 < m) (k : Nat) :
    min i m ≤ sleepSched i m k := by
  rw [sleepSched]
  by_cases hk : k < 4
  · rw [if_pos hk]; exact min_le_left i m
  · rw [if_neg hk]; exact geomDelay_ge_min i m hi hm _

theorem elapsedAfter_ge (i m : ℚ) (hi : 0 < i) (hm : 0 < m) :
    ∀ n : Nat, (n : ℚ) * min i m ≤ elapsedAfter i m n := by
  intro n
  induction n with
  | zero => simp [elapsedAfter]
  | succ n ih =>
    rw [elapsedAfter]
    push_cast
    calc ((n : ℚ) + 1) * min i m = (n : ℚ) * min i m + min i m := by ring
    _ ≤ elapsedAfter i m n + sleepSched i m n :=
        add_le_add ih (sleepSched_ge_min i m hi hm n)

theorem pollRun_total (q : Nat → TaskSnapshot) (t i m : ℚ)
    (hi : 0 < i) (hm : 0 < m) (ht : 0 ≤ t) :
    ∃ (fuel : Nat) (r : PollOutcome) (p : Nat),
      pollRun q t i m fuel 0 = some (r, p) := by
  set μ : ℚ := min i m with hμ
  have hμpos : 0 < μ := lt_min hi hm
  set F : Nat := (⌈t / μ⌉).toNat + 1 with hF
  refine ⟨F + 1, ?_⟩
  rcases hrun : pollRun q t i m (F + 1) 0 with _ | x
  · exfalso
    have hle : elapsedAfter i m (0 + F) ≤ t := pollRun_none_le q t i m F 0 hrun
    rw [Nat.zero_add] at hle
    have hge : (F : ℚ) * μ ≤ elapsedAfter i m F := elapsedAfter_ge i m hi hm F
    have hceil : (0 : ℤ) ≤ ⌈t / μ⌉ := Int.ceil_nonneg (div_nonneg ht hμpos.le)
    have hcast : ((⌈t / μ⌉).toNat : ℚ) = ((⌈t / μ⌉ : ℤ) : ℚ) := by
      exact_mod_cast congrArg (fun z : ℤ => (z : ℚ)) (Int.toNat_of_nonneg hceil)
    have hFq : (F : ℚ) = ((⌈t / μ⌉ : ℤ) : ℚ) + 1 := by
      rw [hF]; push_cast [hcast]; ring
    have hdiv : t / μ ≤ ((⌈t / μ⌉ : ℤ) : ℚ) := Int.le_ceil _
    have htc : t ≤ ((⌈t / μ⌉ : ℤ) : ℚ) * μ := by
      rw [div_le_iff₀ hμpos] at hdiv
      exact hdiv
    have : t < (F : ℚ) * μ := by
      rw [hFq]
      nlinarith
    linarith
  · exact ⟨x.1, x.2, rfl⟩

/-- **C2** — `waitForTask` has exactly three outcomes: it returns the
final snapshot when a query reports `completed`; it raises a task-failed
error carrying the server-reported detail when a query reports `failed`;
and it raises a timeout error when the elapsed time exceeds the budget
before any query reports a terminal state.  `PollSpec` pins each outcome
to these conditions, and some sufficient fuel always produces one of the
three (the loop cannot run forever when the delays are positive). -/
theorem waitForTask_outcomes (q : Nat → TaskSnapshot) (t i m : ℚ)
    (hi : 0 < i) (hm : 0 < m) (ht : 0 ≤ t) :
    ∃ (fuel : Nat) (r : PollOutcome) (p : Nat),
      waitForTask q t i m fuel = some (r, p, p) ∧ PollSpec q t i m r p := by
  obtain ⟨fuel, r, p, hrun⟩ := pollRun_total q t i m hi hm ht
  refine ⟨fuel, r, p, ?_, ?_⟩
  · rw [waitForTask_eq_pollRun, hrun]
    rfl
  · exact pollRun_spec q t i m fuel 0 r p (by omega) hrun

theorem waitForTask_outcomes_witness :
    (0 : ℚ) < 1 ∧ (0 : ℚ) ≤ 0 ∧
    ∃ (fuel : Nat) (r : PollOutcome) (p : Nat),
      waitForTask (fun _ => ⟨"completed", none⟩) 0 1 1 fuel = some (r, p, p) ∧
        PollSpec (fun _ => ⟨"completed", none⟩) 0 1 1 r p :=
  ⟨by norm_num, by norm_num,
    waitForTask_outcomes (fun _ => ⟨"completed", none⟩) 0 1 1
      (by norm_num) (by norm_num) (by norm_num)⟩

/-- The 10-query sequence of the spec's example: nine `pending` snapshots
followed by a `completed` one. -/
def tenQueryStatuses : Nat → TaskSnapshot := fun k =>
  if k < 9 then ⟨"pending", none⟩ else ⟨"completed", none⟩

set_option maxHeartbeats 4000000 in
/-- **C5 (counterexample)** — With initial delay 2000 ms, ceiling 30000 ms
and the 10-query sequence ending in `completed`, the progress callback is
invoked 10 times (once per query, including the terminal one), not 9
times as claimed: `onProgress` is called before the terminal-status check. -/
theorem waitForTask_ten_query_callbacks_cex :
    waitForTask tenQueryStatuses 600000 2000 30000 20 =
      some (PollOutcome.done ⟨"completed", none⟩, 10, 10) ∧ (10 : Nat) ≠ 9 := by
  constructor
  · have s1 : waitForTaskAux tenQueryStatuses 600000 2000 30000 20 0 2000 0 0 =
        waitForTaskAux tenQueryStatuses 600000 2000 30000 19 2000 2000 1 1 :=
      waitForTaskAux_step_burst tenQueryStatuses 600000 2000 30000 19 0 2000 0 0
        2000 (by norm_num) (by decide) (by decide) (by norm_num) (by norm_num)
    have s2 : waitForTaskAux tenQueryStatuses 600000 2000 30000 19 2000 2000 1 1 =
        waitForTaskAux tenQueryStatuses 600000 2000 30000 18 4000 2000 2 2 :=
      waitForTaskAux_step_burst tenQueryStatuses 600000 2000 30000 18 2000 2000 1 1
        4000 (by norm_num) (by decide) (by decide) (by norm_num) (by norm_num)
    have s3 : waitForTaskAux tenQueryStatuses 600000 2000 30000 18 4000 2000 2 2 =
        waitForTaskAux tenQueryStatuses 600000 2000 30000 17 6000 2000 3 3 :=
      waitForTaskAux_step_burst tenQueryStatuses 600000 2000 30000 17 4000 2000 2 2
        6000 (by norm_num) (by decide) (by decide) (by norm_num) (by norm_num)
    have s4 : waitForTaskAux tenQueryStatuses 600000 2000 30000 17 6000 2000 3 3 =
        waitForTaskAux tenQueryStatuses 600000 2000 30000 16 8000 2000 4 4 :=
      waitForTaskAux_step_burst tenQueryStatuses 600000 2000 30000 16 6000 2000 3 3
        8000 (by norm_num) (by decide) (by decide) (by norm_num) (by norm_num)
    have s5 : waitForTaskAux tenQueryStatuses 600000 2000 30000 16 8000 2000 4 4 =
        waitForTaskAux tenQueryStatuses 600000 2000 30000 15 10000 3000 5 5 :=
      waitForTaskAux_step_backoff tenQueryStatuses 600000 2000 30000 15 8000 2000
        4 4 10000 3000 (by norm_num) (by decide) (by decide) (by norm_num)
        (by norm_num) (by norm_num [nextDelay, min_def])
    have s6 : waitForTaskAux tenQueryStatuses 600000 2000 30000 15 10000 3000 5 5 =
        waitForTaskAux tenQueryStatuses 600000 2000 30000 14 13000 4500 6 6 :=
      waitForTaskAux_step_backoff tenQueryStatuses 600000 2000 30000 14 10000 3000
        5 5 13000 4500 (by norm_num) (by decide) (by decide) (by norm_num)
        (by norm_num) (by norm_num [nextDelay, min_def])
    have s7 : waitForTaskAux tenQueryStatuses 600000 2000 30000 14 13000 4500 6 6 =
        waitForTaskAux tenQueryStatuses 600000 2000 30000 13 17500 6750 7 7 :=
      waitForTaskAux_step_backoff tenQueryStatuses 600000 2000 30000 13 13000 4500
        6 6 17500 6750 (by norm_num) (by decide) (by decide) (by norm_num)
        (by norm_num) (by norm_num [nextDelay, min_def])
    have s8 : waitForTaskAux tenQueryStatuses 600000 2000 30000 13 17500 6750 7 7 =
        waitForTaskAux tenQueryStatuses 600000 2000 30000 12 24250 10125 8 8 :=
      waitForTaskAux_step_backoff tenQueryStatuses 600000 2000 30000 12 17500 6750
        7 7 24250 10125 (by norm_num) (by decide) (by decide) (by norm_num)
        (by norm_num) (by norm_num [nextDelay, min_def])
    have s9 : waitForTaskAux tenQueryStatuses 600000 2000 30000 12 24250 10125 8 8 =
        waitForTaskAux tenQueryStatuses 600000 2000 30000 11 34375 (30375 / 2) 9 9 :=
      waitForTaskAux_step_backoff tenQueryStatuses 600000 2000 30000 11 24250 10125
        8 8 34375 (30375 / 2) (by norm_num) (by decide) (by decide) (by norm_num)
        (by norm_num) (by norm_num [nextDelay, min_def])
    have s10 : waitForTaskAux tenQueryStatuses 600000 2000 30000 11 34375 (30375 / 2) 9 9 =
        some (PollOutcome.done (tenQueryStatuses 9), 10, 10) :=
      waitForTaskAux_step_done tenQueryStatuses 600000 2000 30000 10 34375
        (30375 / 2) 9 9 (by norm_num) (by decide)
    rw [waitForTask, s1, s2, s3, s4, s5, s6, s7, s8, s9, s10]
    decide
  · decide

/-- **C5 (amended)** — The progress sink is invoked exactly once per
status query, including the query that reports a terminal state: every
result of `waitForTask` carries a callback count equal to its query
count. -/
theorem waitForTask_callback_per_query (q : Nat → TaskSnapshot)
    (t i m : ℚ) (fuel : Nat) (r : PollOutcome) (p c : Nat) :
    waitForTask q t i m fuel = some (r, p, c) → c = p := by
  rw [waitForTask_eq_pollRun]
  rcases hrun : pollRun q t i m fuel 0 with _ | x
  · intro h
    exact Option.noConfusion h
  · intro h
    obtain ⟨-, hp, hc⟩ := Prod.mk.injEq .. ▸ Option.some.injEq .. ▸ h
    omega

theorem waitForTask_callback_per_query_witness :
    waitForTask (fun _ => ⟨"completed", none⟩) 0 1 1 1 =
      some (PollOutcome.done ⟨"completed", none⟩, 1, 1) ∧ (1 : Nat) = 1 :=
  ⟨by rw [waitForTask, waitForTaskAux_step_done (fun _ => ⟨"completed", none⟩)
      0 1 1 0 0 1 0 0 (by norm_num) rfl],
    waitForTask_callback_per_query (fun _ => ⟨"completed", none⟩) 0 1 1 1
      (PollOutcome.done ⟨"completed", none⟩) 1 1
      (by rw [waitForTask, waitForTaskAux_step_done (fun _ => ⟨"completed", none⟩)
        0 1 1 0 0 1 0 0 (by norm_num) rfl])⟩

theorem geomDelay_nonneg (i m : ℚ) (h0 : 0 ≤ i) (h0m : 0 ≤ m) :
    ∀ j, 0 ≤ geomDelay i m j := by
  intro j
  induction j with
  | zero => exact h0
  | succ j ih =>
    rw [geomDelay, nextDelay]
    exact le_min (by positivity) h0m

theorem geomDelay_le_max (i m : ℚ) (him : i ≤ m) :
    ∀ j, geomDelay i m j ≤ m := by
  intro j
  induction j with
  | zero => exact him
  | succ j _ =>
    rw [geomDelay, nextDelay]
    exact min_le_right _ _

/-- **C6** — The polling delay schedule uses the fixed initial delay for
each of the first five inter-query sleeps; thereafter each successive
sleep is the previous one multiplied by 1.5 and capped at the ceiling; no
sleep exceeds the ceiling; after the burst phase successive sleeps are
non-decreasing; and `waitForTask` performs exactly this schedule (its loop
state at the `k`-th query is `elapsedAfter`/`delayInv`, which are built
from `sleepSched`). -/
theorem sleepSched_schedule (i m : ℚ) (h0 : 0 ≤ i) (him : i ≤ m) :
    (∀ k, k < 5 → sleepSched i m k = i) ∧
    (∀ k, 4 ≤ k → sleepSched i m (k + 1) = min (sleepSched i m k * (3 / 2)) m) ∧
    (∀ k, sleepSched i m k ≤ m) ∧
    (∀ k, 4 ≤ k → sleepSched i m k ≤ sleepSched i m (k + 1)) ∧
    (∀ (q : Nat → TaskSnapshot) (t : ℚ) (fuel : Nat),
      waitForTask q t i m fuel =
        (pollRun q t i m fuel 0).map (fun x => (x.1, x.2, x.2))) := by
  have hstep : ∀ k, 4 ≤ k →
      sleepSched i m (k + 1) = min (sleepSched i m k * (3 / 2)) m := by
    intro k hk
    have h4 : ¬ k < 4 := by omega
    have h4' : ¬ k + 1 < 4 := by omega
    have hidx : k + 1 - 4 = (k - 4) + 1 := by omega
    rw [sleepSched, if_neg h4', hidx, geomDelay, nextDelay, sleepSched, if_neg h4]
  refine ⟨?_, hstep, ?_, ?_, ?_⟩
  · intro k hk
    rcases Nat.lt_or_ge k 4 with h | h
    · exact sleepSched_burst i m k h
    · have : k = 4 := by omega
      subst this
      simp [sleepSched, geomDelay]
  · intro k
    rw [sleepSched]
    by_cases hk : k < 4
    · rw [if_pos hk]; exact him
    · rw [if_neg hk]; exact geomDelay_le_max i m him _
  · intro k hk
    rw [hstep k hk]
    refine le_min ?_ ?_
    · refine le_mul_of_one_le_right ?_ (by norm_num)
      rw [sleepSched]
      by_cases h : k < 4
      · rw [if_pos h]; exact h0
      · rw [if_neg h]; exact geomDelay_nonneg i m h0 (le_trans h0 him) _
    · rw [sleepSched]
      by_cases h : k < 4
      · rw [if_pos h]; exact him
      · rw [if_neg h]; exact geomDelay_le_max i m him _
  · intro q t fuel
    exact waitForTask_eq_pollRun q t i m fuel

theorem sleepSched_schedule_witness :
    (0 : ℚ) ≤ 2000 ∧ (2000 : ℚ) ≤ 30000 ∧
    sleepSched 2000 30000 5 = min (sleepSched 2000 30000 4 * (3 / 2)) 30000 :=
  ⟨by norm_num, by norm_num,
    (sleepSched_schedule 2000 30000 (by norm_num) (by norm_num)).2.1 4 (by norm_num)⟩

/-! ## Batch runner (`processSingleFile` / `processInChunks`, `src/commands/batch.js`) -/

/-- Outcome of one file's processing work (the `try` body of
`processSingleFile`: the OCR request, writing the artifact, and optional
extraction): either an output artifact path or a thrown error's message. -/
inductive ProcOutcome where
  | ok (output : String)
  | err (msg : String)
  deriving DecidableEq, Repr

/-- The per-file result object built by `processSingleFile`:
`{file, status: 'success', output}` or `{file, status: 'failed', error}`. -/
structure BatchItemResult where
  file : String
  status : String
  output : Option String
  error : Option String
  deriving DecidableEq, Repr

instance : Inhabited BatchItemResult := ⟨⟨"", "", none, none⟩⟩

/-- `path.basename`: the part of a path after the last separator. -/
def basename (p : String) : String :=
  String.mk ((p.toList.reverse.takeWhile (fun c => c ≠ '/')).reverse)

/-- `processSingleFile` from `src/commands/batch.js`: its whole body is a
single `try`/`catch`; success returns a success record with the output
path, and **any** exception is caught and converted into a failure record
carrying the file name and the error message.  `proc` abstracts the body
(kind dispatch to `ocrImage`/`ocrPdfSync`, artifact write, extraction);
progress-bar updates are display-only and omitted. -/
def processSingleFile (proc : String → ProcOutcome) (filePath : String) :
    BatchItemResult :=
  match proc filePath with
  | ProcOutcome.ok out =>
      { file := basename filePath, status := "success", output := some out,
        error := none }
  | ProcOutcome.err m =>
      { file := basename filePath, status := "failed", output := none,
        error := some m }

/-- The chunking of the `for (let i = 0; i < files.length; i += workers)`
loop: consecutive slices `files.slice(i, i + workers)`.  For `workers ≥ 1`
this is exactly the loop's slicing (the source loops forever when
`workers = 0`, a case outside every claim). -/
def chunked (workers : Nat) : List α → List (List α)
  | [] => []
  | x :: xs => (x :: xs.take (workers - 1)) :: chunked workers (xs.drop (workers - 1))
termination_by l => l.length
decreasing_by simp only [List.length_drop, List.length_cons]; omega

/-- `processInChunks` from `src/commands/batch.js`: each chunk is mapped
through `processSingleFile` (`Promise.all` keeps the chunk's index order),
and chunk results are appended in chunk order. -/
def processInChunks (proc : String → ProcOutcome) (files : List String)
    (workers : Nat) : List BatchItemResult :=
  ((chunked workers files).map (fun chunk => chunk.map (processSingleFile proc))).flatten

theorem chunked_join_bounded (w : Nat) :
    ∀ (n : Nat) (l : List α), l.length ≤ n → (chunked w l).flatten = l := by
  intro n
  induction n with
  | zero =>
    intro l h
    cases l with
    | nil => simp [chunked]
    | cons x xs => simp at h
  | succ n ih =>
    intro l h
    cases l with
    | nil => simp [chunked]
    | cons x xs =>
      rw [chunked]
      simp only [List.flatten_cons]
      rw [ih (xs.drop (w - 1)) (by simp only [List.length_drop]; simp at h; omega)]
      simp only [List.cons_append]
      rw [List.take_append_drop]

theorem chunked_join (w : Nat) (l : List α) : (chunked w l).flatten = l :=
  chunked_join_bounded w l.length l le_rfl

theorem processInChunks_eq_map (proc : String → ProcOutcome)
    (files : List String) (workers : Nat) :
    processInChunks proc files workers = files.map (processSingleFile proc) := by
  rw [processInChunks, ← List.map_flatten, chunked_join]

theorem getD_map (f : α → β) (l : List α) (i : Nat) (hi : i < l.length)
    (d₁ : β) (d₂ : α) : (l.map f).getD i d₁ = f (l.getD i d₂) := by
  rw [List.getD_eq_getElem?_getD, List.getD_eq_getElem?_getD,
    List.getElem?_map, List.getElem?_eq_getElem hi]
  simp

/-- **C3** — For every non-empty file list and every worker count from 1
to the list length, the batch result list has the same length as the input
list and its `i`-th entry is the result for the `i`-th input file (whose
`file` field is that file's basename), for any assignment of
successes/failures. -/
theorem processInChunks_length_order (proc : String → ProcOutcome)
    (files : List String) (workers : Nat) (hne : files ≠ [])
    (hw : 1 ≤ workers) (hwl : workers ≤ files.length) :
    (processInChunks proc files workers).length = files.length ∧
    processInChunks proc files workers = files.map (processSingleFile proc) ∧
    (∀ i, i < files.length →
      (processInChunks proc files workers).getD i default =
        processSingleFile proc (files.getD i "")) ∧
    (∀ i, i < files.length →
      ((processInChunks proc files workers).getD i default).file =
        basename (files.getD i "")) := by
  have hmap := processInChunks_eq_map proc files workers
  have hgetD : ∀ i, i < files.length →
      (processInChunks proc files workers).getD i default =
        processSingleFile proc (files.getD i "") := by
    intro i hi
    rw [hmap]
    exact getD_map (processSingleFile proc) files i hi default ""
  refine ⟨by rw [hmap]; simp, hmap, hgetD, ?_⟩
  intro i hi
  rw [hgetD i hi, processSingleFile]
  cases proc (files.getD i "") <;> simp

theorem processInChunks_length_order_witness :
    (["a.png", "b.pdf", "c.png"] : List String) ≠ [] ∧ 1 ≤ 2 ∧
    2 ≤ (["a.png", "b.pdf", "c.png"] : List String).length ∧
    (processInChunks (fun f => if f = "b.pdf" then ProcOutcome.err "boom"
        else ProcOutcome.ok (f ++ ".zip")) ["a.png", "b.pdf", "c.png"] 2).length =
      (["a.png", "b.pdf", "c.png"] : List String).length := by
  refine ⟨by decide, by decide, by decide, ?_⟩
  exact (processInChunks_length_order
    (fun f => if f = "b.pdf" then ProcOutcome.err "boom"
      else ProcOutcome.ok (f ++ ".zip"))
    ["a.png", "b.pdf", "c.png"] 2 (by decide) (by decide) (by decide)).1

/-- **C4** — Any exception raised while processing one file is converted
into a failure record (file name plus error message) and never propagates:
the batch result is total (one entry per input, for every behaviour of
`proc`), every entry carries exactly one of an output path or an error
message matching its status tag, and the result at index `i` depends only
on the processing of file `i` — a failing file leaves every other file's
result unchanged. -/
theorem processInChunks_error_containment (proc proc₂ : String → ProcOutcome)
    (files : List String) (workers : Nat) (hw : 1 ≤ workers) :
    (∀ f m, proc f = ProcOutcome.err m →
      processSingleFile proc f =
        ⟨basename f, "failed", none, some m⟩) ∧
    (processInChunks proc files workers).length = files.length ∧
    (∀ r ∈ processInChunks proc files workers,
      (r.status = "success" ∧ r.output.isSome ∧ r.error = none) ∨
      (r.status = "failed" ∧ r.output = none ∧ r.error.isSome)) ∧
    (∀ i, i < files.length → proc (files.getD i "") = proc₂ (files.getD i "") →
      (processInChunks proc files workers).getD i default =
        (processInChunks proc₂ files workers).getD i default) := by
  refine ⟨?_, ?_, ?_, ?_⟩
  · intro f m hf
    rw [processSingleFile, hf]
  · rw [processInChunks_eq_map]; simp
  · intro r hr
    rw [processInChunks_eq_map] at hr
    obtain ⟨f, -, rfl⟩ := List.mem_map.mp hr
    rw [processSingleFile]
    cases proc f <;> simp
  · intro i hi hagree
    rw [processInChunks_eq_map, processInChunks_eq_map,
      getD_map (processSingleFile proc) files i hi default "",
      getD_map (processSingleFile proc₂) files i hi default "",
      processSingleFile, processSingleFile, hagree]

theorem processInChunks_error_containment_witness :
    1 ≤ 2 ∧
    processSingleFile (fun _ => ProcOutcome.err "network down") "dir/a.png" =
      ⟨"a.png", "failed", none, some "network down"⟩ := by
  refine ⟨by decide, ?_⟩
  have h := (processInChunks_error_containment (fun _ => ProcOutcome.err "network down")
    (fun _ => ProcOutcome.err "network down") ["dir/a.png"] 2 (by decide)).1
    "dir/a.png" "network down" rfl
  rw [h]
  decide

/-! ## Task history store (`pruneOldTasks` / `handleTaskList`, `src/commands/task.js`) -/

/-- One entry of `history.json` (`submitted_at` and `last_checked` are ISO
strings in the file; they are modelled as the epoch milliseconds that
`new Date(s).getTime()` yields on them). -/
structure HistoryEntry where
  task_id : String
  input_file : String
  submitted_at : ℤ
  last_checked : ℤ
  status : String
  error : Option String
  deriving DecidableEq, Repr

/-- `7 * 24 * 60 * 60 * 1000` milliseconds: the 7-day retention window. -/
def retentionMs : ℤ := 7 * 24 * 60 * 60 * 1000

/-- `pruneOldTasks` from `src/commands/task.js` as a transformer of the
stored history: it keeps the entries with `submittedDate > sevenDaysAgo`
and rewrites the file only when something was removed
(`filtered.length < history.length`); the result is the file's content
after the call. -/
def pruneOldTasks (now : ℤ) (stored : List HistoryEntry) : List HistoryEntry :=
  let sevenDaysAgo := now - retentionMs
  let filtered := stored.filter (fun h => decide (sevenDaysAgo < h.submitted_at))
  if filtered.length < stored.length then filtered else stored

/-- `handleTaskList` from `src/commands/task.js`: prune first, then load
and return the stored history.  The pair is (new stored state, returned
list). -/
def handleTaskList (now : ℤ) (stored : List HistoryEntry) :
    List HistoryEntry × List HistoryEntry :=
  let pruned := pruneOldTasks now stored
  (pruned, pruned)

theorem pruneOldTasks_eq_filter (now : ℤ) (stored : List HistoryEntry) :
    pruneOldTasks now stored =
      stored.filter (fun h => decide (now - retentionMs < h.submitted_at)) := by
  rw [pruneOldTasks]
  split
  · rfl
  · next hlen =>
    have hsub : List.Sublist (stored.filter
        (fun h => decide (now - retentionMs < h.submitted_at))) stored :=
      List.filter_sublist stored
    have hle := hsub.length_le
    exact (hsub.eq_of_length (by omega)).symm

/-- **C7** — `handleTaskList` first removes every entry whose submission
time falls outside the 7-day retention window, persists the pruned set,
and returns exactly the surviving entries in their original insertion
order (a filter, hence a sublist of the stored history); the returned
list never contains an entry outside the window, even across repeated
calls. -/
theorem handleTaskList_retention (now : ℤ) (stored : List HistoryEntry) :
    (handleTaskList now stored).2 =
      stored.filter (fun h => decide (now - retentionMs < h.submitted_at)) ∧
    (handleTaskList now stored).1 = (handleTaskList now stored).2 ∧
    (∀ e ∈ (handleTaskList now stored).2, now - retentionMs < e.submitted_at) ∧
    List.Sublist (handleTaskList now stored).2 stored ∧
    (∀ now₂ : ℤ, ∀ e ∈ (handleTaskList now₂ (handleTaskList now stored).1).2,
      now₂ - retentionMs < e.submitted_at) := by
  have hret : ∀ (n : ℤ) (l : List HistoryEntry),
      ∀ e ∈ (handleTaskList n l).2, n - retentionMs < e.submitted_at := by
    intro n l e he
    rw [handleTaskList] at he
    simp only at he
    rw [pruneOldTasks_eq_filter] at he
    simpa using (List.of_mem_filter he)
  refine ⟨?_, rfl, hret now stored, ?_, ?_⟩
  · rw [handleTaskList]
    simp only
    exact pruneOldTasks_eq_filter now stored
  · rw [handleTaskList]
    simp only
    rw [pruneOldTasks_eq_filter]
    exact List.filter_sublist stored
  · intro now₂
    exact hret now₂ (handleTaskList now stored).1

theorem handleTaskList_retention_witness :
    (handleTaskList 1000000000 [⟨"t1", "a.pdf", 999999999, 999999999, "pending", none⟩,
        ⟨"t2", "b.pdf", 0, 0, "completed", none⟩]).2 =
      [⟨"t1", "a.pdf", 999999999, 999999999, "pending", none⟩] := by
  have h := (handleTaskList_retention 1000000000
    [⟨"t1", "a.pdf", 999999999, 999999999, "pending", none⟩,
     ⟨"t2", "b.pdf", 0, 0, "completed", none⟩]).1
  rw [h]
  decide

/-! ## ZIP extraction control flow (`extractZip`, `src/lib/utils.js`) -/

/-- How a call to `extractZip` can end: extraction through the `adm-zip`
path, extraction through the command-line fallback (`unzip` /
`Expand-Archive`), or the fallback's own failure being rethrown to the
caller.  Note there is no rejection outcome: every throw inside the `try`
block — including the `Unsafe ZIP entry detected` guard error — is caught
by the surrounding `catch`, which runs the fallback. -/
inductive ExtractOutcome where
  | admExtracted
  | fallbackExtracted
  | fallbackError
  deriving DecidableEq, Repr

/-- The control flow of `extractZip(zipPath, outputDir)` from
`src/lib/utils.js`.  `admAvailable` models whether `adm-zip` can be
imported; `entryUnsafe e` models the per-entry path-traversal guard
(`!resolvedEntryPath.startsWith(resolvedOutputDir + path.sep) && ...`);
`fallbackOk` models whether the command-line extractor exits
successfully.  In the `adm-zip` path, an unsafe entry throws — and the
`catch` block then runs the command-line fallback on the same archive. -/
def extractZip (admAvailable : Bool) (entries : List String)
    (entryUnsafe : String → Bool) (fallbackOk : Bool) : ExtractOutcome :=
  if admAvailable then
    if entries.any entryUnsafe then
      if fallbackOk then ExtractOutcome.fallbackExtracted
      else ExtractOutcome.fallbackError
    else ExtractOutcome.admExtracted
  else
    if fallbackOk then ExtractOutcome.fallbackExtracted
    else ExtractOutcome.fallbackError

/-- **C8** — Contrary to the claim, an archive containing an entry whose
resolved path escapes the destination directory is **not** rejected when
the command-line extractor is available: the traversal guard's throw is
swallowed by the `catch` block, which re-extracts the same archive with
the unguarded command-line fallback and returns success.  Evaluated at an
archive whose single entry `../evil.txt` trips the guard. -/
theorem extractZip_traversal_not_rejected :
    extractZip true ["../evil.txt"] (fun e => e == "../evil.txt") true =
      ExtractOutcome.fallbackExtracted ∧
    extractZip true ["../evil.txt"] (fun e => e == "../evil.txt") true ≠
      ExtractOutcome.fallbackError ∧
    extractZip true ["../evil.txt"] (fun e => e == "../evil.txt") true ≠
      ExtractOutcome.admExtracted := by
  refine ⟨?_, ?_, ?_⟩ <;> decide

end DSOCR
